import Mathlib

/-!
Verification development for the qml-imu EKF orientation estimator.

The repository exposes a single header, `src/src/IMU.h`, declaring the IMU
processing class: an extended Kalman filter over a 4-component quaternion
state, fed by gyroscope (predict path) and accelerometer/magnetometer
(correct path) samples, with post-update conditioning (normalization and
shortest-path sign correction) and an angle-axis output projector.  The
implementation files (`IMU.cpp`, `ExtendedKalmanFilter.h`) are not part of
the sources, so the bodies below are modelled from the design document
(`spec.md`), faithful to its words; the header's declarations (member
types, in-class initializers, function signatures and their doc comments)
are embedded directly.

All floating-point (`qreal`) arithmetic is idealized over `ℝ`.
-/

open Matrix

/-- `EPSILON` member of `IMU` (`IMU.h` line 264: `FLT_EPSILON or DBL_EPSILON`);
we take `DBL_EPSILON = 2⁻⁵² = 1/4503599627370496` since `qreal` is `double`. -/
noncomputable def EPSILON : ℝ := 1 / 4503599627370496

/-- Failure taxonomy of the estimator (spec §7). -/
inductive FilterFailure where
  | DegenerateState
  deriving DecidableEq

/-- The 4-component quaternion (scalar part `q0`, vector part `q1,q2,q3`)
used as the filter state (spec §3). -/
structure Quat where
  q0 : ℝ
  q1 : ℝ
  q2 : ℝ
  q3 : ℝ

/-- Squared Euclidean norm of a quaternion. -/
noncomputable def Quat.normSq (q : Quat) : ℝ := q.q0 ^ 2 + q.q1 ^ 2 + q.q2 ^ 2 + q.q3 ^ 2

/-- Euclidean norm of a quaternion. -/
noncomputable def Quat.norm (q : Quat) : ℝ := Real.sqrt q.normSq

/-- Scalar multiple of a quaternion. -/
noncomputable def Quat.smul (c : ℝ) (q : Quat) : Quat := ⟨c * q.q0, c * q.q1, c * q.q2, c * q.q3⟩

/-- Componentwise negation of a quaternion. -/
noncomputable def Quat.neg (q : Quat) : Quat := ⟨-q.q0, -q.q1, -q.q2, -q.q3⟩

/-- Euclidean dot product of two quaternions viewed as 4-vectors. -/
noncomputable def Quat.dot (p q : Quat) : ℝ :=
  p.q0 * q.q0 + p.q1 * q.q1 + p.q2 * q.q2 + p.q3 * q.q3

/-- Hamilton product of two quaternions. -/
noncomputable def Quat.mul (p q : Quat) : Quat :=
  ⟨p.q0 * q.q0 - p.q1 * q.q1 - p.q2 * q.q2 - p.q3 * q.q3,
   p.q0 * q.q1 + p.q1 * q.q0 + p.q2 * q.q3 - p.q3 * q.q2,
   p.q0 * q.q2 - p.q1 * q.q3 + p.q2 * q.q0 + p.q3 * q.q1,
   p.q0 * q.q3 + p.q1 * q.q2 - p.q2 * q.q1 + p.q3 * q.q0⟩

/-- The identity quaternion. -/
noncomputable def identQuat : Quat := ⟨1, 0, 0, 0⟩

/-- `IMU::normalizeQuat` (`IMU.h` lines 211–216). Modelled from the spec:
the body is in the absent `IMU.cpp`; per spec §4.4, divide the quaternion by
its norm, and fail with `DegenerateState` when the norm is below the
numerical epsilon instead of dividing by near-zero. -/
noncomputable def normalizeQuat (quat : Quat) : Except FilterFailure Quat :=
  if quat.norm < EPSILON then Except.error FilterFailure.DegenerateState
  else Except.ok (Quat.smul (Quat.norm quat)⁻¹ quat)

/-- `IMU::shortestPathQuat` (`IMU.h` lines 218–224). Modelled from the spec:
the body is in the absent `IMU.cpp`; per spec §4.4, compute the dot product
between the new state and the previous state snapshot and negate the new
state when that dot product is negative, preventing quaternion unwinding. -/
noncomputable def shortestPathQuat (prevQuat quat : Quat) : Quat :=
  if Quat.dot prevQuat quat < 0 then Quat.neg quat else quat

/-- Incremental rotation quaternion for an angular-velocity vector scaled by
`deltaT`. Modelled from the spec (§4.2): the exponential of half the rotation
vector; identity when the angular speed is zero. -/
noncomputable def incrementalQuat (wx wy wz deltaT : ℝ) : Quat :=
  let wn := Real.sqrt (wx ^ 2 + wy ^ 2 + wz ^ 2)
  if wn = 0 then identQuat
  else
    let half := wn * deltaT / 2
    ⟨Real.cos half, Real.sin half / wn * wx, Real.sin half / wn * wy,
     Real.sin half / wn * wz⟩

/-- Process value of `IMU::calculateProcess` (`IMU.h` lines 226–239).
Modelled from the spec: the body is in the absent `IMU.cpp`; per spec §4.2,
the next quaternion is the current quaternion composed with the incremental
rotation quaternion derived from the angular velocity scaled by `deltaT`,
and a non-positive `deltaT` is not integrated (identity process). -/
noncomputable def calculateProcess (x : Quat) (wx wy wz deltaT : ℝ) : Quat :=
  if deltaT ≤ 0 then x else Quat.mul x (incrementalQuat wx wy wz deltaT)

/-- Matrix of right Hamilton multiplication by `r`, acting on the state
viewed as a column 4-vector: the Jacobian of `q ↦ q ⊗ r` in `q`. -/
noncomputable def rightMulMat (r : Quat) : Matrix (Fin 4) (Fin 4) ℝ :=
  !![r.q0, -r.q1, -r.q2, -r.q3;
     r.q1,  r.q0,  r.q3, -r.q2;
     r.q2, -r.q3,  r.q0,  r.q1;
     r.q3,  r.q2, -r.q1,  r.q0]

/-- Transition matrix `F(k-1)` of `IMU::calculateProcess` (`IMU.h` lines
226–239). Modelled from the spec (§4.2): the Jacobian of the process
composition; the identity matrix when `deltaT` is not integrated. -/
noncomputable def processF (wx wy wz deltaT : ℝ) : Matrix (Fin 4) (Fin 4) ℝ :=
  if deltaT ≤ 0 then 1 else rightMulMat (incrementalQuat wx wy wz deltaT)

/-- Process-noise covariance `Q(k-1)` of `IMU::calculateProcess`, derived
from the base matrix `Q` (`IMU.h` line 280). Modelled from the spec (§4.2):
the fixed base scaled by `deltaT`; zero when `deltaT` is not integrated. -/
noncomputable def processQmat (Qbase : Matrix (Fin 4) (Fin 4) ℝ) (deltaT : ℝ) :
    Matrix (Fin 4) (Fin 4) ℝ :=
  if deltaT ≤ 0 then 0 else deltaT • Qbase

/-- State of the generic extended Kalman filter (`ExtendedKalmanFilter` member,
`IMU.h` line 278): state estimate `x` as a column vector and error
covariance `P`. Modelled from the spec (§4.1): `ExtendedKalmanFilter.h` is
absent from the sources. -/
structure KFState (n : ℕ) where
  x : Matrix (Fin n) (Fin 1) ℝ
  P : Matrix (Fin n) (Fin n) ℝ

/-- EKF predict. Modelled from the spec (§4.1): replaces `x` with the
already-evaluated process value and updates `P = F·P·Fᵀ + Q`. -/
noncomputable def predictKF {n : ℕ} (s : KFState n)
    (processValue : Matrix (Fin n) (Fin 1) ℝ) (F Q : Matrix (Fin n) (Fin n) ℝ) :
    KFState n :=
  ⟨processValue, F * s.P * Fᵀ + Q⟩

/-- EKF correct. Modelled from the spec (§4.1): innovation `y = z − h(x)`,
innovation covariance `S = H·P·Hᵀ + R`, gain `K = P·Hᵀ·S⁻¹`, then
`x ← x + K·y` and `P ← (I − K·H)·P`. -/
noncomputable def correctKF {n m : ℕ} (s : KFState n)
    (z hx : Matrix (Fin m) (Fin 1) ℝ) (H : Matrix (Fin m) (Fin n) ℝ)
    (R : Matrix (Fin m) (Fin m) ℝ) : KFState n :=
  let y := z - hx
  let S := H * s.P * Hᵀ + R
  let K := s.P * Hᵀ * S⁻¹
  ⟨s.x + K * y, (1 - K * H) * s.P⟩

/-- A quaternion as a column 4-vector for the filter core. -/
noncomputable def Quat.toVec (q : Quat) : Matrix (Fin 4) (Fin 1) ℝ :=
  !![q.q0; q.q1; q.q2; q.q3]

/-- A column 4-vector read back as a quaternion. -/
noncomputable def Quat.ofVec (v : Matrix (Fin 4) (Fin 1) ℝ) : Quat :=
  ⟨v 0 0, v 1 0, v 2 0, v 3 0⟩

/-- The estimator state visible across cycles: the filter's quaternion state
`x` and covariance `P`, plus the previous a priori / a posteriori state
snapshots `statePreHistory` / `statePostHistory` (`IMU.h` lines 285–286)
used for sign correction. -/
structure FilterState where
  x : Quat
  P : Matrix (Fin 4) (Fin 4) ℝ
  statePreHistory : Quat
  statePostHistory : Quat

/-- One predict cycle, as triggered by `IMU::gyroReadingChanged`. Modelled
from the spec (§2 data flow, §4.2, §4.4): process model, filter-core
predict, then normalization and shortest-path sign correction against the
a priori history snapshot. -/
noncomputable def predictCycle (Qbase : Matrix (Fin 4) (Fin 4) ℝ)
    (s : FilterState) (wx wy wz deltaT : ℝ) : Except FilterFailure FilterState :=
  let pv := calculateProcess s.x wx wy wz deltaT
  let F := processF wx wy wz deltaT
  let kf := predictKF ⟨Quat.toVec s.x, s.P⟩ (Quat.toVec pv) F (processQmat Qbase deltaT)
  match normalizeQuat pv with
  | Except.error e => Except.error e
  | Except.ok xn =>
      let xs := shortestPathQuat s.statePreHistory xn
      Except.ok ⟨xs, kf.P, xs, s.statePostHistory⟩

/-- One correct cycle, as triggered by `IMU::accReadingChanged`. Modelled
from the spec (§2 data flow, §4.1, §4.4, §7): when the innovation
covariance is singular the correction is skipped and the predicted state
stands; otherwise filter-core correct, then normalization and shortest-path
sign correction against the a posteriori history snapshot. -/
noncomputable def correctCycle (s : FilterState)
    (z hx : Matrix (Fin 6) (Fin 1) ℝ) (H : Matrix (Fin 6) (Fin 4) ℝ)
    (R : Matrix (Fin 6) (Fin 6) ℝ) : Except FilterFailure FilterState :=
  let S := H * s.P * Hᵀ + R
  if S.det = 0 then Except.ok s
  else
    let kf := correctKF ⟨Quat.toVec s.x, s.P⟩ z hx H R
    match normalizeQuat (Quat.ofVec kf.x) with
    | Except.error e => Except.error e
    | Except.ok xn =>
        let xs := shortestPathQuat s.statePostHistory xn
        Except.ok ⟨xs, kf.P, s.statePreHistory, xs⟩

/-- A filter-core call in a run of the estimator: a gyroscope-triggered
predict or an accelerometer-triggered correct with its observation-model
outputs. -/
inductive Step where
  | gyro (wx wy wz deltaT : ℝ)
  | accel (z hx : Matrix (Fin 6) (Fin 1) ℝ) (H : Matrix (Fin 6) (Fin 4) ℝ)
      (R : Matrix (Fin 6) (Fin 6) ℝ)

/-- Runs a sequence of predict/correct cycles from a state, stopping at the
first failure. -/
noncomputable def runSteps (Qbase : Matrix (Fin 4) (Fin 4) ℝ) :
    List Step → FilterState → Except FilterFailure FilterState
  | [], s => Except.ok s
  | Step.gyro wx wy wz deltaT :: rest, s =>
      match predictCycle Qbase s wx wy wz deltaT with
      | Except.error e => Except.error e
      | Except.ok s' => runSteps Qbase rest s'
  | Step.accel z hx H R :: rest, s =>
      match correctCycle s z hx H R with
      | Except.error e => Except.error e
      | Except.ok s' => runSteps Qbase rest s'

/-- Normalization of a 3-vector to a unit direction. -/
noncomputable def normalize3 (x y z : ℝ) : ℝ × ℝ × ℝ :=
  let n := Real.sqrt (x ^ 2 + y ^ 2 + z ^ 2)
  (x / n, y / n, z / n)

/-- Squared Euclidean norm of a 3-vector. -/
noncomputable def norm3Sq (v : ℝ × ℝ × ℝ) : ℝ := v.1 ^ 2 + v.2.1 ^ 2 + v.2.2 ^ 2

/-- Observation vector `z(k)` of `IMU::calculateObservation` (`IMU.h` lines
241–256). Modelled from the spec (§4.3): both the accelerometer reading and
the cached magnetometer reading are normalized to unit directions, and `z`
is their 6-component concatenation in the body frame. -/
noncomputable def calculateObservation (ax ay az mx my mz : ℝ) :
    Matrix (Fin 6) (Fin 1) ℝ :=
  !![(normalize3 ax ay az).1; (normalize3 ax ay az).2.1; (normalize3 ax ay az).2.2;
     (normalize3 mx my mz).1; (normalize3 mx my mz).2.1; (normalize3 mx my mz).2.2]

/-- Angle-axis output (`rotAxis` / `rotAngle`, `IMU.h` lines 294–298). -/
structure OutRot where
  axis : ℝ × ℝ × ℝ
  angle : ℝ

/-- Norm of the vector part `(q1,q2,q3)` of a quaternion. -/
noncomputable def vecPartNorm (q : Quat) : ℝ :=
  Real.sqrt (q.q1 ^ 2 + q.q2 ^ 2 + q.q3 ^ 2)

/-- `IMU::calculateOutputRotation` (`IMU.h` lines 258–261). Modelled from
the spec (§4.5): angle `2·acos(clamp(q0,−1,1))` and axis `(q1,q2,q3)`
normalized; a fixed default unit axis and angle 0 when the vector part's
norm is below epsilon. -/
noncomputable def calculateOutputRotation (q : Quat) : OutRot :=
  let vn := vecPartNorm q
  if vn < EPSILON then ⟨(0, 0, 1), 0⟩
  else ⟨(q.q1 / vn, q.q2 / vn, q.q3 / vn), 2 * Real.arccos (max (-1) (min 1 q.q0))⟩

/-- The magnetometer measurement cache: members `mx`, `my`, `mz` of `IMU`
(`IMU.h` lines 289–291), with their in-class initializers `= 0`.  The
header declares no further member alongside them (no has-been-set flag). -/
structure MagCache where
  mx : ℝ
  my : ℝ
  mz : ℝ

/-- The initial cache, from the in-class initializers `qreal mx = 0;`
`qreal my = 0;` `qreal mz = 0;` (`IMU.h` lines 289–291). -/
noncomputable def initMagCache : MagCache := ⟨0, 0, 0⟩

/-- `IMU::magReadingChanged` effect on the cache. Modelled from the spec
(§3): the cache is overwritten on every magnetometer sample. -/
noncomputable def magReadingStore (_c : MagCache) (x y z : ℝ) : MagCache :=
  ⟨x, y, z⟩

/-- The magnetic-field vector an accelerometer-triggered correction feeds to
`IMU::calculateObservation`. Modelled from the spec (§3): the cache is read
on every accelerometer-triggered correction — the latest known magnetic
reading. -/
noncomputable def accCorrectionMagInput (c : MagCache) : ℝ × ℝ × ℝ :=
  (c.mx, c.my, c.mz)

/-- Modulus of the `quint64` timestamps (`IMU.h` lines 274–276). -/
def U64_MOD : ℕ := 2 ^ 64

/-- `quint64` subtraction `a - b`, i.e. subtraction modulo `2⁶⁴`, for
operands already reduced below `2⁶⁴`. -/
def u64sub (a b : ℕ) : ℕ := (U64_MOD + a - b) % U64_MOD

/-- Elapsed time between consecutive samples of a stream, as the `quint64`
difference of the current and the stored last timestamp
(`lastGyroTimestamp` …, `IMU.h` lines 274–276). Modelled from the spec
(§6): timestamps are used only to compute `deltaT` between consecutive
samples; the subtraction itself is in the absent `IMU.cpp`. -/
def streamDeltaT (lastTimestamp current : ℕ) : ℕ := u64sub current lastTimestamp

/-- Initial estimator state. Modelled from the spec (§8): initial state is
the identity quaternion; the covariance initialization is not specified and
is taken to be the identity matrix. -/
noncomputable def initState : FilterState := ⟨identQuat, 1, identQuat, identQuat⟩

/-- A state with zero covariance, used to evaluate correction cycles on
concrete inputs. -/
noncomputable def zeroCovState : FilterState := ⟨identQuat, 0, identQuat, identQuat⟩

lemma EPSILON_pos : 0 < EPSILON := by unfold EPSILON; norm_num

lemma EPSILON_le_one : EPSILON ≤ 1 := by unfold EPSILON; norm_num

lemma Quat.normSq_nonneg (q : Quat) : 0 ≤ q.normSq := by
  unfold Quat.normSq; positivity

lemma Quat.sq_norm (q : Quat) : q.norm ^ 2 = q.normSq :=
  Real.sq_sqrt q.normSq_nonneg

lemma Quat.norm_neg (q : Quat) : (Quat.neg q).norm = q.norm := by
  unfold Quat.norm Quat.normSq Quat.neg; ring_nf

lemma Quat.norm_smul_inv (q : Quat) (h : q.norm ≠ 0) :
    (Quat.smul (q.norm)⁻¹ q).norm = 1 := by
  have h1 : (Quat.smul (q.norm)⁻¹ q).normSq = ((q.norm)⁻¹) ^ 2 * q.normSq := by
    unfold Quat.smul Quat.normSq; ring
  rw [Quat.norm, h1, ← Quat.sq_norm,
    show ((q.norm)⁻¹) ^ 2 * q.norm ^ 2 = ((q.norm)⁻¹ * q.norm) ^ 2 from by ring,
    inv_mul_cancel₀ h, one_pow, Real.sqrt_one]

lemma normalizeQuat_ok_norm {q r : Quat} (h : normalizeQuat q = Except.ok r) :
    r.norm = 1 := by
  by_cases hc : q.norm < EPSILON
  · rw [normalizeQuat, if_pos hc] at h; cases h
  · rw [normalizeQuat, if_neg hc] at h
    injection h with h'
    rw [← h']
    exact Quat.norm_smul_inv q
      (ne_of_gt (lt_of_lt_of_le EPSILON_pos (not_lt.mp hc)))

lemma normalizeQuat_error {q : Quat} (h : q.norm < EPSILON) :
    normalizeQuat q = Except.error FilterFailure.DegenerateState := by
  rw [normalizeQuat, if_pos h]

lemma shortestPathQuat_norm (p q : Quat) : (shortestPathQuat p q).norm = q.norm := by
  unfold shortestPathQuat
  split
  · exact Quat.norm_neg q
  · rfl

lemma shortestPathQuat_dot (p q : Quat) : 0 ≤ Quat.dot p (shortestPathQuat p q) := by
  unfold shortestPathQuat
  split
  · rename_i hlt
    have hneg : Quat.dot p (Quat.neg q) = -Quat.dot p q := by
      unfold Quat.dot Quat.neg; ring
    rw [hneg]; linarith
  · rename_i hge
    exact not_lt.mp hge

lemma shortestPathQuat_cases (p q : Quat) :
    shortestPathQuat p q = q ∨ shortestPathQuat p q = Quat.neg q := by
  unfold shortestPathQuat
  split
  · exact Or.inr rfl
  · exact Or.inl rfl

lemma predictCycle_ok_norm {Qbase : Matrix (Fin 4) (Fin 4) ℝ} {s s' : FilterState}
    {wx wy wz deltaT : ℝ} (h : predictCycle Qbase s wx wy wz deltaT = Except.ok s') :
    Quat.norm s'.x = 1 := by
  rw [predictCycle] at h
  cases hn : normalizeQuat (calculateProcess s.x wx wy wz deltaT) with
  | error e => rw [hn] at h; cases h
  | ok xn =>
      rw [hn] at h
      injection h with h'
      rw [← h']
      exact (shortestPathQuat_norm _ _).trans (normalizeQuat_ok_norm hn)

lemma correctCycle_ok_norm {s s' : FilterState} {z hx : Matrix (Fin 6) (Fin 1) ℝ}
    {H : Matrix (Fin 6) (Fin 4) ℝ} {R : Matrix (Fin 6) (Fin 6) ℝ}
    (h0 : Quat.norm s.x = 1) (h : correctCycle s z hx H R = Except.ok s') :
    Quat.norm s'.x = 1 := by
  simp only [correctCycle] at h
  by_cases hdet : (H * s.P * Hᵀ + R).det = 0
  · rw [if_pos hdet] at h
    injection h with h'
    rw [← h']; exact h0
  · rw [if_neg hdet] at h
    cases hn : normalizeQuat (Quat.ofVec (correctKF ⟨Quat.toVec s.x, s.P⟩ z hx H R).x) with
    | error e => rw [hn] at h; cases h
    | ok xn =>
        rw [hn] at h
        injection h with h'
        rw [← h']
        exact (shortestPathQuat_norm _ _).trans (normalizeQuat_ok_norm hn)

lemma runSteps_ok_norm (Qbase : Matrix (Fin 4) (Fin 4) ℝ) (l : List Step) :
    ∀ s s' : FilterState, Quat.norm s.x = 1 →
      runSteps Qbase l s = Except.ok s' → Quat.norm s'.x = 1 := by
  induction l with
  | nil =>
      intro s s' h0 h
      rw [runSteps] at h
      injection h with h'
      rw [← h']; exact h0
  | cons st rest ih =>
      intro s s' h0 h
      cases st with
      | gyro wx wy wz deltaT =>
          rw [runSteps] at h
          cases hp : predictCycle Qbase s wx wy wz deltaT with
          | error e => rw [hp] at h; cases h
          | ok s1 =>
              rw [hp] at h
              exact ih s1 s' (predictCycle_ok_norm hp) h
      | accel z hx H R =>
          rw [runSteps] at h
          cases hp : correctCycle s z hx H R with
          | error e => rw [hp] at h; cases h
          | ok s1 =>
              rw [hp] at h
              exact ih s1 s' (correctCycle_ok_norm h0 hp) h

lemma identQuat_norm : Quat.norm identQuat = 1 := by
  simp [identQuat, Quat.norm, Quat.normSq]

lemma initState_x_norm : Quat.norm initState.x = 1 := identQuat_norm

lemma Quat.smul_one_inv (q : Quat) : Quat.smul (1 : ℝ)⁻¹ q = q := by
  simp [Quat.smul]

lemma normalizeQuat_of_norm_one {q : Quat} (h : Quat.norm q = 1) :
    normalizeQuat q = Except.ok q := by
  rw [normalizeQuat, h, if_neg (not_lt.mpr EPSILON_le_one), Quat.smul_one_inv]

lemma normalizeQuat_ident : normalizeQuat identQuat = Except.ok identQuat :=
  normalizeQuat_of_norm_one identQuat_norm

lemma shortestPathQuat_ident : shortestPathQuat identQuat identQuat = identQuat := by
  have h : ¬ Quat.dot identQuat identQuat < 0 := by
    norm_num [Quat.dot, identQuat]
  rw [shortestPathQuat, if_neg h]

lemma Quat.ofVec_toVec (q : Quat) : Quat.ofVec (Quat.toVec q) = q := by
  simp [Quat.ofVec, Quat.toVec]

lemma predictCycle_nonpos (Qbase : Matrix (Fin 4) (Fin 4) ℝ) (s : FilterState)
    (wx wy wz deltaT : ℝ) (hdt : deltaT ≤ 0) (hx : Quat.norm s.x = 1) :
    predictCycle Qbase s wx wy wz deltaT =
      Except.ok ⟨shortestPathQuat s.statePreHistory s.x, s.P,
        shortestPathQuat s.statePreHistory s.x, s.statePostHistory⟩ := by
  have hpv : calculateProcess s.x wx wy wz deltaT = s.x := by
    rw [calculateProcess, if_pos hdt]
  have hF : processF wx wy wz deltaT = 1 := by rw [processF, if_pos hdt]
  have hQ : processQmat Qbase deltaT = 0 := by rw [processQmat, if_pos hdt]
  simp only [predictCycle, hpv, hF, hQ, predictKF, normalizeQuat_of_norm_one hx]
  simp

lemma predictCycle_init_eval : predictCycle 0 initState 0 0 0 0 = Except.ok initState := by
  rw [predictCycle_nonpos 0 initState 0 0 0 0 le_rfl initState_x_norm]
  rw [show initState.statePreHistory = identQuat from rfl,
    show initState.x = identQuat from rfl, shortestPathQuat_ident]
  rfl

lemma correctCycle_skip (s : FilterState) (z hx : Matrix (Fin 6) (Fin 1) ℝ)
    (H : Matrix (Fin 6) (Fin 4) ℝ) (R : Matrix (Fin 6) (Fin 6) ℝ)
    (hdet : (H * s.P * Hᵀ + R).det = 0) :
    correctCycle s z hx H R = Except.ok s := by
  simp only [correctCycle]
  rw [if_pos hdet]

lemma correctCycle_unit_eval :
    correctCycle zeroCovState 0 0 0 1 = Except.ok zeroCovState := by
  have hdet : ¬ ((0 : Matrix (Fin 6) (Fin 4) ℝ) * zeroCovState.P *
      (0 : Matrix (Fin 6) (Fin 4) ℝ)ᵀ + (1 : Matrix (Fin 6) (Fin 6) ℝ)).det = 0 := by
    simp
  have hK : correctKF ⟨Quat.toVec zeroCovState.x, zeroCovState.P⟩
      (0 : Matrix (Fin 6) (Fin 1) ℝ) 0 0 1 = ⟨Quat.toVec identQuat, 0⟩ := by
    simp [correctKF, zeroCovState]
  simp only [correctCycle, hdet, if_false, hK, Quat.ofVec_toVec, normalizeQuat_ident]
  rw [show zeroCovState.statePostHistory = identQuat from rfl, shortestPathQuat_ident]
  rfl

/-- C1: after every predict cycle and every correct cycle the stored
quaternion state is divided by its norm, so for every sequence of
predict/correct calls from a unit-norm state the stored state satisfies
‖x‖ = 1; a quaternion whose norm is below the numerical epsilon makes the
normalization fail with DegenerateState instead of dividing. -/
theorem unitNorm_invariant (Qbase : Matrix (Fin 4) (Fin 4) ℝ) (l : List Step)
    (s s' : FilterState) (h0 : Quat.norm s.x = 1)
    (h : runSteps Qbase l s = Except.ok s') :
    Quat.norm s'.x = 1 ∧
      ∀ q : Quat, Quat.norm q < EPSILON →
        normalizeQuat q = Except.error FilterFailure.DegenerateState :=
  ⟨runSteps_ok_norm Qbase l s s' h0 h, fun _ hq => normalizeQuat_error hq⟩

/-- Witness for C1 at a concrete run: one gyroscope cycle from the initial
state. -/
theorem unitNorm_invariant_witness :
    Quat.norm initState.x = 1 ∧
      ∀ q : Quat, Quat.norm q < EPSILON →
        normalizeQuat q = Except.error FilterFailure.DegenerateState := by
  refine unitNorm_invariant 0 [Step.gyro 0 0 0 0] initState initState
    initState_x_norm ?_
  rw [runSteps, predictCycle_init_eval]
  rfl

/-- C2: the filter-core predict replaces x with the supplied process value
and updates P = F·P·Fᵀ + Q; correct computes innovation y = z − h(x),
innovation covariance S = H·P·Hᵀ + R, gain K = P·Hᵀ·S⁻¹, and updates
x ← x + K·y and P ← (I − K·H)·P. -/
theorem ekf_predict_correct_contract {n m : ℕ} (s : KFState n)
    (pv : Matrix (Fin n) (Fin 1) ℝ) (F Q : Matrix (Fin n) (Fin n) ℝ)
    (z hx : Matrix (Fin m) (Fin 1) ℝ) (H : Matrix (Fin m) (Fin n) ℝ)
    (R : Matrix (Fin m) (Fin m) ℝ) :
    (predictKF s pv F Q).x = pv ∧
    (predictKF s pv F Q).P = F * s.P * Fᵀ + Q ∧
    (correctKF s z hx H R).x =
      s.x + s.P * Hᵀ * (H * s.P * Hᵀ + R)⁻¹ * (z - hx) ∧
    (correctKF s z hx H R).P =
      (1 - s.P * Hᵀ * (H * s.P * Hᵀ + R)⁻¹ * H) * s.P :=
  ⟨rfl, rfl, rfl, rfl⟩

/-- C3: after each predict and each performed correct, the new state is
sign-corrected against the previous snapshot of the same filter stage
(pre- with pre-, post- with post-): the stored state has nonnegative dot
product with the snapshot, the snapshot is updated to the stored state, and
a negative dot product causes negation before storing. -/
theorem sign_continuity (Qbase : Matrix (Fin 4) (Fin 4) ℝ) (s : FilterState)
    (wx wy wz deltaT : ℝ) (z hx : Matrix (Fin 6) (Fin 1) ℝ)
    (H : Matrix (Fin 6) (Fin 4) ℝ) (R : Matrix (Fin 6) (Fin 6) ℝ) :
    (∀ s', predictCycle Qbase s wx wy wz deltaT = Except.ok s' →
      0 ≤ Quat.dot s.statePreHistory s'.x ∧ s'.statePreHistory = s'.x) ∧
    ((H * s.P * Hᵀ + R).det ≠ 0 →
      ∀ s', correctCycle s z hx H R = Except.ok s' →
        0 ≤ Quat.dot s.statePostHistory s'.x ∧ s'.statePostHistory = s'.x) ∧
    (∀ p c : Quat, Quat.dot p c < 0 → shortestPathQuat p c = Quat.neg c) := by
  refine ⟨?_, ?_, ?_⟩
  · intro s' h
    rw [predictCycle] at h
    cases hn : normalizeQuat (calculateProcess s.x wx wy wz deltaT) with
    | error e => rw [hn] at h; cases h
    | ok xn =>
        rw [hn] at h
        injection h with h'
        rw [← h']
        exact ⟨shortestPathQuat_dot _ _, rfl⟩
  · intro hdet s' h
    simp only [correctCycle] at h
    rw [if_neg hdet] at h
    cases hn : normalizeQuat
        (Quat.ofVec (correctKF ⟨Quat.toVec s.x, s.P⟩ z hx H R).x) with
    | error e => rw [hn] at h; cases h
    | ok xn =>
        rw [hn] at h
        injection h with h'
        rw [← h']
        exact ⟨shortestPathQuat_dot _ _, rfl⟩
  · intro p c hlt
    rw [shortestPathQuat, if_pos hlt]

/-- Witness for C3 at concrete cycles: a gyroscope cycle from the initial
state, an accelerometer cycle with unit innovation covariance, and a
sign-flipped quaternion pair. -/
theorem sign_continuity_witness :
    (0 ≤ Quat.dot initState.statePreHistory initState.x ∧
      initState.statePreHistory = initState.x) ∧
    (0 ≤ Quat.dot zeroCovState.statePostHistory zeroCovState.x ∧
      zeroCovState.statePostHistory = zeroCovState.x) ∧
    shortestPathQuat identQuat (Quat.neg identQuat) =
      Quat.neg (Quat.neg identQuat) := by
  refine ⟨?_, ?_, ?_⟩
  · exact (sign_continuity 0 initState 0 0 0 0 0 0 0 0).1 initState
      predictCycle_init_eval
  · refine (sign_continuity 0 zeroCovState 0 0 0 0 0 0 0 1).2.1 (by simp)
      zeroCovState correctCycle_unit_eval
  · exact (sign_continuity 0 initState 0 0 0 0 0 0 0 0).2.2 identQuat
      (Quat.neg identQuat) (by norm_num [Quat.dot, Quat.neg, identQuat])

/-- C4: a control input with deltaT = 0 or negative is not integrated: the
process model returns the state unchanged with the identity transition and
zero added noise, the predict cycle succeeds (no DegenerateState, no error
to the caller), the covariance is unchanged, and the state changes at most
by the conditioning sign flip. -/
theorem degenerate_deltaT_noop (Qbase : Matrix (Fin 4) (Fin 4) ℝ)
    (s : FilterState) (wx wy wz deltaT : ℝ) (hdt : deltaT ≤ 0)
    (hx : Quat.norm s.x = 1) :
    calculateProcess s.x wx wy wz deltaT = s.x ∧
    processF wx wy wz deltaT = 1 ∧
    processQmat Qbase deltaT = 0 ∧
    ∃ s', predictCycle Qbase s wx wy wz deltaT = Except.ok s' ∧
      s'.P = s.P ∧ (s'.x = s.x ∨ s'.x = Quat.neg s.x) := by
  refine ⟨by rw [calculateProcess, if_pos hdt], by rw [processF, if_pos hdt],
    by rw [processQmat, if_pos hdt], ?_⟩
  exact ⟨_, predictCycle_nonpos Qbase s wx wy wz deltaT hdt hx, rfl,
    shortestPathQuat_cases s.statePreHistory s.x⟩

/-- Witness for C4 at deltaT = −1 from the initial state. -/
theorem degenerate_deltaT_noop_witness :
    calculateProcess initState.x 0 0 0 (-1) = initState.x ∧
    processF 0 0 0 (-1) = 1 ∧
    processQmat 0 (-1) = 0 ∧
    ∃ s', predictCycle 0 initState 0 0 0 (-1) = Except.ok s' ∧
      s'.P = initState.P ∧
      (s'.x = initState.x ∨ s'.x = Quat.neg initState.x) :=
  degenerate_deltaT_noop 0 initState 0 0 0 (-1) (by norm_num) initState_x_norm

/-- C5: when the innovation covariance S = H·P·Hᵀ + R is singular, the
correction cycle is skipped: the predicted state and covariance stand
unchanged and no user-visible failure is produced. -/
theorem singular_innovation_skip (s : FilterState)
    (z hx : Matrix (Fin 6) (Fin 1) ℝ) (H : Matrix (Fin 6) (Fin 4) ℝ)
    (R : Matrix (Fin 6) (Fin 6) ℝ) (hdet : (H * s.P * Hᵀ + R).det = 0) :
    correctCycle s z hx H R = Except.ok s :=
  correctCycle_skip s z hx H R hdet

/-- Witness for C5 at an all-zero observation model, where S = 0. -/
theorem singular_innovation_skip_witness :
    correctCycle zeroCovState 0 0 0 0 = Except.ok zeroCovState :=
  singular_innovation_skip zeroCovState 0 0 0 0 (by simp)

/-- C6 counterexample: the magnetometer cache declared in the header
(`qreal mx = 0; my = 0; mz = 0;`, no further member) carries no
has-been-set flag — the cache state after storing a genuine all-zero
reading is identical to the never-set initial state — and an
accelerometer-triggered correction at the initial state reads the default
zero magnetic-field vector rather than being skipped. -/
theorem magCache_no_flag_counterexample :
    magReadingStore initMagCache 0 0 0 = initMagCache ∧
    accCorrectionMagInput initMagCache = (0, 0, 0) :=
  ⟨rfl, rfl⟩

/-- C6 amended: the cache holds only the three latest magnetometer
components, zero-initialized with no has-been-set flag; every
accelerometer-triggered correction reads the latest cache value, so a
correction before the first magnetometer sample uses the zero vector. -/
theorem magCache_zero_default :
    accCorrectionMagInput initMagCache = (0, 0, 0) ∧
    ∀ (c : MagCache) (x y z : ℝ),
      accCorrectionMagInput (magReadingStore c x y z) = (x, y, z) :=
  ⟨rfl, fun _ _ _ _ => rfl⟩

lemma norm3Sq_normalize3 (x y z : ℝ) (h : 0 < norm3Sq (x, y, z)) :
    norm3Sq (normalize3 x y z) = 1 := by
  have hs : 0 < x ^ 2 + y ^ 2 + z ^ 2 := by simpa [norm3Sq] using h
  have hsq : Real.sqrt (x ^ 2 + y ^ 2 + z ^ 2) ^ 2 = x ^ 2 + y ^ 2 + z ^ 2 :=
    Real.sq_sqrt hs.le
  simp only [normalize3, norm3Sq]
  rw [show (x / Real.sqrt (x ^ 2 + y ^ 2 + z ^ 2)) ^ 2 +
      (y / Real.sqrt (x ^ 2 + y ^ 2 + z ^ 2)) ^ 2 +
      (z / Real.sqrt (x ^ 2 + y ^ 2 + z ^ 2)) ^ 2 =
      (x ^ 2 + y ^ 2 + z ^ 2) / Real.sqrt (x ^ 2 + y ^ 2 + z ^ 2) ^ 2
    from by ring, hsq, div_self (ne_of_gt hs)]

/-- C8: the observation model normalizes both the accelerometer reading and
the cached magnetometer reading to unit directions, and the observation
vector z is the 6-component concatenation of the two unit directions. -/
theorem observation_concat_unit (ax ay az mx my mz : ℝ)
    (ha : 0 < norm3Sq (ax, ay, az)) (hm : 0 < norm3Sq (mx, my, mz)) :
    calculateObservation ax ay az mx my mz =
      !![(normalize3 ax ay az).1; (normalize3 ax ay az).2.1;
         (normalize3 ax ay az).2.2; (normalize3 mx my mz).1;
         (normalize3 mx my mz).2.1; (normalize3 mx my mz).2.2] ∧
    norm3Sq (normalize3 ax ay az) = 1 ∧
    norm3Sq (normalize3 mx my mz) = 1 :=
  ⟨rfl, norm3Sq_normalize3 ax ay az ha, norm3Sq_normalize3 mx my mz hm⟩

/-- Witness for C8 at the readings (0,0,2) and (3,4,0). -/
theorem observation_concat_unit_witness :
    calculateObservation 0 0 2 3 4 0 =
      !![(normalize3 0 0 2).1; (normalize3 0 0 2).2.1; (normalize3 0 0 2).2.2;
         (normalize3 3 4 0).1; (normalize3 3 4 0).2.1; (normalize3 3 4 0).2.2] ∧
    norm3Sq (normalize3 0 0 2) = 1 ∧
    norm3Sq (normalize3 3 4 0) = 1 :=
  observation_concat_unit 0 0 2 3 4 0 (by norm_num [norm3Sq])
    (by norm_num [norm3Sq])

/-- C7: the output projector always reports a unit axis and an angle in
[0, 2π]; when the vector part's norm is below epsilon it reports the fixed
default axis (0,0,1) with angle 0, and otherwise it reports the normalized
vector part with angle 2·acos(clamp(q0, −1, 1)); in particular the reported
pair is always well defined. -/
theorem outputRotation_spec (q : Quat) :
    norm3Sq (calculateOutputRotation q).axis = 1 ∧
    0 ≤ (calculateOutputRotation q).angle ∧
    (calculateOutputRotation q).angle ≤ 2 * Real.pi ∧
    (vecPartNorm q < EPSILON →
      (calculateOutputRotation q).axis = (0, 0, 1) ∧
      (calculateOutputRotation q).angle = 0) ∧
    (EPSILON ≤ vecPartNorm q →
      (calculateOutputRotation q).axis =
        (q.q1 / vecPartNorm q, q.q2 / vecPartNorm q, q.q3 / vecPartNorm q) ∧
      (calculateOutputRotation q).angle =
        2 * Real.arccos (max (-1) (min 1 q.q0))) := by
  by_cases hv : vecPartNorm q < EPSILON
  · simp only [calculateOutputRotation]
    rw [if_pos hv]
    refine ⟨by norm_num [norm3Sq], le_refl 0, by positivity,
      fun _ => ⟨rfl, rfl⟩, fun habs => absurd habs (not_le.mpr hv)⟩
  · have hle : EPSILON ≤ vecPartNorm q := not_lt.mp hv
    have hpos : 0 < vecPartNorm q := lt_of_lt_of_le EPSILON_pos hle
    have hssq : 0 < q.q1 ^ 2 + q.q2 ^ 2 + q.q3 ^ 2 := by
      have := Real.sq_sqrt (show 0 ≤ q.q1 ^ 2 + q.q2 ^ 2 + q.q3 ^ 2 by positivity)
      calc (0:ℝ) < vecPartNorm q ^ 2 := by positivity
        _ = q.q1 ^ 2 + q.q2 ^ 2 + q.q3 ^ 2 := this
    have hax : norm3Sq (q.q1 / vecPartNorm q, q.q2 / vecPartNorm q,
        q.q3 / vecPartNorm q) = 1 := by
      simp only [norm3Sq]
      rw [show (q.q1 / vecPartNorm q) ^ 2 + (q.q2 / vecPartNorm q) ^ 2 +
          (q.q3 / vecPartNorm q) ^ 2 =
          (q.q1 ^ 2 + q.q2 ^ 2 + q.q3 ^ 2) / vecPartNorm q ^ 2 from by ring]
      rw [show vecPartNorm q ^ 2 = q.q1 ^ 2 + q.q2 ^ 2 + q.q3 ^ 2 from
        Real.sq_sqrt (by positivity)]
      exact div_self (ne_of_gt hssq)
    have harc0 := Real.arccos_nonneg (max (-1) (min 1 q.q0))
    have harcpi := Real.arccos_le_pi (max (-1) (min 1 q.q0))
    simp only [calculateOutputRotation]
    rw [if_neg hv]
    exact ⟨hax, by linarith, by linarith,
      fun habs => absurd habs (not_lt.mpr hle),
      fun _ => ⟨rfl, rfl⟩⟩

/-- Witness for C7 at the identity quaternion (degenerate vector part). -/
theorem outputRotation_spec_witness :
    (calculateOutputRotation identQuat).axis = (0, 0, 1) ∧
    (calculateOutputRotation identQuat).angle = 0 :=
  (outputRotation_spec identQuat).2.2.2.1
    (by rw [show vecPartNorm identQuat = 0 from by
          simp [vecPartNorm, identQuat]]
        exact EPSILON_pos)

lemma quat_one_mul (q : Quat) : Quat.mul identQuat q = q := by
  simp [Quat.mul, identQuat]

lemma incrementalQuat_z_axis (wz deltaT : ℝ) (hw : 0 < wz) :
    incrementalQuat 0 0 wz deltaT =
      ⟨Real.cos (wz * deltaT / 2), 0, 0, Real.sin (wz * deltaT / 2)⟩ := by
  have h1 : Real.sqrt ((0:ℝ) ^ 2 + (0:ℝ) ^ 2 + wz ^ 2) = wz := by
    rw [show (0:ℝ) ^ 2 + (0:ℝ) ^ 2 + wz ^ 2 = wz ^ 2 from by ring,
      Real.sqrt_sq hw.le]
  have h2 : Real.sin (wz * deltaT / 2) / wz * wz = Real.sin (wz * deltaT / 2) :=
    div_mul_cancel₀ _ (ne_of_gt hw)
  simp only [incrementalQuat, h1]
  rw [if_neg (ne_of_gt hw)]
  simp [Quat.mk.injEq, h2]

lemma pi_quarter_mem : 0 ≤ Real.pi / 4 ∧ Real.pi / 4 ≤ Real.pi :=
  ⟨by positivity, by linarith [Real.pi_pos]⟩

lemma sin_pi_quarter_pos : 0 < Real.sin (Real.pi / 4) :=
  Real.sin_pos_of_pos_of_lt_pi (by positivity) (by linarith [Real.pi_pos])

lemma halfPiQuat_norm :
    Quat.norm ⟨Real.cos (Real.pi / 4), 0, 0, Real.sin (Real.pi / 4)⟩ = 1 := by
  rw [Quat.norm]
  rw [show Quat.normSq ⟨Real.cos (Real.pi / 4), 0, 0, Real.sin (Real.pi / 4)⟩ =
      Real.cos (Real.pi / 4) ^ 2 + Real.sin (Real.pi / 4) ^ 2 from by
    rw [Quat.normSq]; ring]
  rw [Real.cos_sq_add_sin_sq, Real.sqrt_one]

lemma halfPiQuat_process :
    calculateProcess identQuat 0 0 (Real.pi / 2) 1 =
      ⟨Real.cos (Real.pi / 4), 0, 0, Real.sin (Real.pi / 4)⟩ := by
  have hw : 0 < Real.pi / 2 := by positivity
  rw [calculateProcess, if_neg (by norm_num : ¬ (1:ℝ) ≤ 0),
    incrementalQuat_z_axis (Real.pi / 2) 1 hw, quat_one_mul,
    show Real.pi / 2 * 1 / 2 = Real.pi / 4 from by ring]

lemma halfPiQuat_output :
    calculateOutputRotation ⟨Real.cos (Real.pi / 4), 0, 0, Real.sin (Real.pi / 4)⟩ =
      ⟨(0, 0, 1), Real.pi / 2⟩ := by
  have hvn : vecPartNorm ⟨Real.cos (Real.pi / 4), 0, 0, Real.sin (Real.pi / 4)⟩ =
      Real.sin (Real.pi / 4) := by
    rw [vecPartNorm]
    rw [show (0:ℝ) ^ 2 + (0:ℝ) ^ 2 + Real.sin (Real.pi / 4) ^ 2 =
        Real.sin (Real.pi / 4) ^ 2 from by ring,
      Real.sqrt_sq sin_pi_quarter_pos.le]
  have hsqrt2 : (1:ℝ) ≤ Real.sqrt 2 := by
    rw [show (1:ℝ) = Real.sqrt 1 from Real.sqrt_one.symm]
    exact Real.sqrt_le_sqrt (by norm_num)
  have hvge : ¬ vecPartNorm ⟨Real.cos (Real.pi / 4), 0, 0,
      Real.sin (Real.pi / 4)⟩ < EPSILON := by
    rw [hvn, Real.sin_pi_div_four]
    refine not_lt.mpr ?_
    rw [EPSILON]
    linarith
  have hmin : min 1 (Real.cos (Real.pi / 4)) = Real.cos (Real.pi / 4) :=
    min_eq_right (Real.cos_le_one _)
  have hmax : max (-1) (Real.cos (Real.pi / 4)) = Real.cos (Real.pi / 4) :=
    max_eq_right (by linarith [Real.neg_one_le_cos (Real.pi / 4)])
  simp only [calculateOutputRotation]
  rw [if_neg hvge, hvn]
  have haxis : ((0:ℝ) / Real.sin (Real.pi / 4), (0:ℝ) / Real.sin (Real.pi / 4),
      Real.sin (Real.pi / 4) / Real.sin (Real.pi / 4)) = ((0:ℝ), (0:ℝ), (1:ℝ)) := by
    rw [zero_div, div_self (ne_of_gt sin_pi_quarter_pos)]
  have hangle : 2 * Real.arccos (max (-1) (min 1
      (Quat.q0 ⟨Real.cos (Real.pi / 4), 0, 0, Real.sin (Real.pi / 4)⟩))) =
      Real.pi / 2 := by
    rw [show Quat.q0 ⟨Real.cos (Real.pi / 4), 0, 0, Real.sin (Real.pi / 4)⟩ =
        Real.cos (Real.pi / 4) from rfl, hmin, hmax,
      Real.arccos_cos pi_quarter_mem.1 pi_quarter_mem.2]
    ring
  rw [OutRot.mk.injEq]
  exact ⟨haxis, hangle⟩

/-- C9: from the identity state, a single angular-velocity sample
(0, 0, π/2) with deltaT = 1 and no correction yields an output rotation of
angle π/2 about the axis (0,0,1). -/
theorem gyro_halfpi_scenario :
    ∃ s', predictCycle 0 initState 0 0 (Real.pi / 2) 1 = Except.ok s' ∧
      (calculateOutputRotation s'.x).angle = Real.pi / 2 ∧
      (calculateOutputRotation s'.x).axis = (0, 0, 1) := by
  have hdot : ¬ Quat.dot identQuat
      ⟨Real.cos (Real.pi / 4), 0, 0, Real.sin (Real.pi / 4)⟩ < 0 := by
    have hc : 0 < Real.cos (Real.pi / 4) := by
      rw [Real.cos_pi_div_four]; positivity
    simp only [Quat.dot, identQuat]
    push_neg
    nlinarith
  have hsp : shortestPathQuat identQuat
      ⟨Real.cos (Real.pi / 4), 0, 0, Real.sin (Real.pi / 4)⟩ =
      ⟨Real.cos (Real.pi / 4), 0, 0, Real.sin (Real.pi / 4)⟩ := by
    rw [shortestPathQuat, if_neg hdot]
  refine ⟨⟨⟨Real.cos (Real.pi / 4), 0, 0, Real.sin (Real.pi / 4)⟩,
    processF 0 0 (Real.pi / 2) 1 * initState.P * (processF 0 0 (Real.pi / 2) 1)ᵀ +
      processQmat 0 1,
    ⟨Real.cos (Real.pi / 4), 0, 0, Real.sin (Real.pi / 4)⟩, identQuat⟩, ?_, ?_, ?_⟩
  · simp only [predictCycle, predictKF]
    rw [show initState.x = identQuat from rfl, halfPiQuat_process,
      normalizeQuat_of_norm_one halfPiQuat_norm]
    rw [show initState.statePreHistory = identQuat from rfl]
    simp only [hsp]
    rfl
  · rw [halfPiQuat_output]
  · rw [halfPiQuat_output]

/-- C10: timestamps are unsigned 64-bit values, so the deltaT of an
out-of-order (decreasing) timestamp pair wraps modulo 2⁶⁴ to the huge
positive value 2⁶⁴ − (last − current) instead of being negative. -/
theorem timestamp_unsigned_wrap (tlast tcur : ℕ) (h1 : tcur < tlast)
    (h2 : tlast < U64_MOD) :
    streamDeltaT tlast tcur = U64_MOD - (tlast - tcur) ∧
    0 < streamDeltaT tlast tcur ∧
    (streamDeltaT tlast tcur : ℤ) = (tcur : ℤ) - (tlast : ℤ) + (U64_MOD : ℤ) := by
  have hmod : U64_MOD = 18446744073709551616 := by norm_num [U64_MOD]
  unfold streamDeltaT u64sub
  rw [hmod] at h2 ⊢
  omega

/-- Witness for C10 at current timestamp 5 arriving after last timestamp 10. -/
theorem timestamp_unsigned_wrap_witness :
    streamDeltaT 10 5 = U64_MOD - (10 - 5) ∧
    0 < streamDeltaT 10 5 ∧
    (streamDeltaT 10 5 : ℤ) = ((5:ℕ) : ℤ) - ((10:ℕ) : ℤ) + (U64_MOD : ℤ) :=
  timestamp_unsigned_wrap 10 5 (by norm_num) (by norm_num [U64_MOD])
